import Mathlib

/-!
# Verification of the intent language loader

A shallow embedding of `intents/language/intent_language.py`: the example
utterance tokenizer (`ExampleUtterance.chunks`), the response payload
parsers (`from_yaml` of each `IntentResponse` subclass), the response
group assembly (`_build_responses`) and the language data loader
(`intent_language_data`), together with theorems about them.

Strings are modelled as `List Char`; Python exceptions are modelled with
`Except` over an explicit error type, one constructor per raise site.
-/

namespace IntentLanguage

/-- Opaque stand-in for a Python entity class object (`_EntityMetaclass`). -/
structure EntityClass where
  id : Nat
deriving DecidableEq

/-- One entry of `intent.parameter_schema()`: the tokenizer only reads its
`entity_cls` attribute. -/
structure NluIntentParameter where
  entity_cls : EntityClass
deriving DecidableEq

/-- `intent.parameter_schema()` as an association list from parameter name
to its declared parameter. -/
abbrev ParameterSchema := List (List Char × NluIntentParameter)

/-- Membership / subscript access on the parameter schema, modelling
`parameter_name in parameter_schema` and `parameter_schema[parameter_name]`. -/
def schemaLookup : ParameterSchema → List Char → Option NluIntentParameter
  | [], _ => none
  | (k, spec) :: rest, name => if k = name then some spec else schemaLookup rest name

/-- A chunk of an example utterance (`UtteranceChunk` and its two
dataclasses `TextUtteranceChunk` / `EntityUtteranceChunk`). -/
inductive UtteranceChunk where
  | textUtteranceChunk (text : List Char)
  | entityUtteranceChunk (entity_cls : EntityClass) (parameter_name : List Char)
      (parameter_value : List Char)
deriving DecidableEq

/-- Python exceptions raised inside the loader, one constructor per raise
site of the source file. -/
inductive PyError where
  /-- `ValueError` from `ExampleUtterance.chunks` on a parameter name
  missing from the schema. -/
  | unknownParameter (parameter_name : List Char)
  /-- `ValueError` from `QuickRepliesIntentResponse.__post_init__` on a
  reply longer than 20 characters. -/
  | quickReplyTooLong (reply : String) (length : Nat)
  /-- `ValueError` from `CustomPayloadIntentResponse.from_yaml` on a
  non-mapping input. -/
  | malformedPayloadNotDict
  /-- `ValueError` from `CustomPayloadIntentResponse.from_yaml` on a key
  count different from one. -/
  | malformedPayloadKeyCount (key_count : Nat)
  /-- `ValueError` from `CustomPayloadIntentResponse.from_yaml` on a
  payload value that is not itself a mapping. -/
  | malformedPayloadContentNotDict (payload_name : String)
  /-- `ValueError` from `_build_responses` on a non-text message type in
  the default response group. -/
  | invalidResponseGroup (r_type : String)
  /-- `NotImplementedError` from `_build_responses` on a response group
  other than default and rich. -/
  | unsupportedResponseGroup (group : String)
  /-- `NotImplementedError` from `_build_responses` on an unknown response
  type key. -/
  | unsupportedResponseType (r_type : String)
  /-- A failing `assert` statement. -/
  | assertionError
  /-- A `TypeError` or `AttributeError` from using a value of the wrong
  dynamic type (for example calling `.items()` on a non-dict). -/
  | typeError
deriving DecidableEq

/-- Whether an error is one of the malformed-custom-payload failures of
`CustomPayloadIntentResponse.from_yaml`. -/
def PyError.isMalformedPayload : PyError → Bool
  | .malformedPayloadNotDict => true
  | .malformedPayloadKeyCount _ => true
  | .malformedPayloadContentNotDict _ => true
  | _ => false

/-! ## Example utterance tokenizer

`RE_EXAMPLE_PARAMETERS` is the pattern dollar, one or more word
characters (group `parameter_name`), opening brace, one or more non-brace
characters (group `parameter_value`), closing brace.  Both repetitions
are greedy; since a word character can never stand where the opening
brace is required and a non-closing-brace character can never stand where
the closing brace is required, backtracking can never succeed, so the
greedy longest take of each character class is exact. -/

/-- Python `\w` on the character classes used by the claims: letters,
digits and the underscore. -/
def isWordChar (c : Char) : Bool := c.isAlphanum || c == '_'

/-- Attempt to match `RE_EXAMPLE_PARAMETERS` anchored at the head of the
input, returning the captured parameter name, the captured parameter
value, and the remaining input. -/
def matchAtHead : List Char → Option (List Char × List Char × List Char)
  | '$' :: rest =>
    match rest.dropWhile isWordChar with
    | '{' :: r2 =>
      if (rest.takeWhile isWordChar).isEmpty then none
      else
        match r2.dropWhile (fun c => c != '}') with
        | '}' :: r4 =>
          if (r2.takeWhile (fun c => c != '}')).isEmpty then none
          else some (rest.takeWhile isWordChar, r2.takeWhile (fun c => c != '}'), r4)
        | _ => none
    | _ => none
  | _ => none

/-- The scan of `RE_EXAMPLE_PARAMETERS.finditer`: left to right,
non-overlapping, advancing one character when no match starts at the
current position.  Returns the (name, value) capture pairs in order.
The fuel argument only bounds the recursion; `findMatches` below supplies
enough for it never to run out. -/
def findMatchesFuel : Nat → List Char → List (List Char × List Char)
  | _, [] => []
  | 0, _ :: _ => []
  | fuel + 1, c :: rest =>
    match matchAtHead (c :: rest) with
    | some (name, value, r) => (name, value) :: findMatchesFuel fuel r
    | none => findMatchesFuel fuel rest

/-- All annotation matches of an example string, in scan order. -/
def findMatches (s : List Char) : List (List Char × List Char) :=
  findMatchesFuel s.length s

/-- The scan of `RE_EXAMPLE_PARAMETERS.finditer` again, recording each
match's start position (`m.span()[0]`) together with its captures: the
entry for a match found at the head of the current remainder is the
current absolute position, and the scan resumes after the match.  Two
matches are adjacent in the source's sense exactly when they are
consecutive entries whose second position is the first position plus the
first match's total length (name, value and the three marker
characters). -/
def findMatchesPosFuel : Nat → List Char → Nat → List (Nat × List Char × List Char)
  | _, [], _ => []
  | 0, _ :: _, _ => []
  | fuel + 1, c :: rest, pos =>
    match matchAtHead (c :: rest) with
    | some (name, value, r) =>
      (pos, name, value) ::
        findMatchesPosFuel fuel r (pos + (name.length + value.length + 3))
    | none => findMatchesPosFuel fuel rest (pos + 1)

/-- All annotation matches of an example string with their start
positions, in scan order. -/
def findMatchesPos (s : List Char) : List (Nat × List Char × List Char) :=
  findMatchesPosFuel s.length s 0

/-- The loop body of `ExampleUtterance.chunks`: `pos` is the absolute
position of the scan (`m_start` of a match found at the head of `s`),
`pending` is the literal text `self[last_end:pos]` accumulated since the
end of the previous match.  Mirrors the source: a text chunk is appended
before a match whenever `m_start > 0` (even when the pending text is
empty), an unknown parameter name raises, and the trailing text chunk is
appended only when non-empty.  The fuel argument only bounds the
recursion; `chunks` below supplies enough for it never to run out. -/
def chunksAux (schema : ParameterSchema) :
    Nat → List Char → Nat → List Char → Except PyError (List UtteranceChunk)
  | _, [], _, pending =>
    .ok (if pending.isEmpty then [] else [.textUtteranceChunk pending])
  | 0, c :: rest, _, pending =>
    .ok (if (pending ++ c :: rest).isEmpty then []
         else [.textUtteranceChunk (pending ++ c :: rest)])
  | fuel + 1, c :: rest, pos, pending =>
    match matchAtHead (c :: rest) with
    | some (name, value, r) =>
      match schemaLookup schema name with
      | none => .error (.unknownParameter name)
      | some spec =>
        match chunksAux schema fuel r (pos + (name.length + value.length + 3)) [] with
        | .ok tail =>
          .ok ((if pos > 0 then [.textUtteranceChunk pending] else []) ++
            .entityUtteranceChunk spec.entity_cls name value :: tail)
        | .error e => .error e
    | none => chunksAux schema fuel rest (pos + 1) (pending ++ [c])

/-- `ExampleUtterance.chunks`: tokenize an example utterance against the
intent's parameter schema. -/
def chunks (schema : ParameterSchema) (s : List Char) :
    Except PyError (List UtteranceChunk) :=
  chunksAux schema s.length s 0 []

/-- `ExampleUtterance.__init__`: the constructor stores the string and
immediately calls `chunks`, so construction fails exactly when chunking
fails; on success the object is the example string itself. -/
def ExampleUtterance.mk (schema : ParameterSchema) (ex : List Char) :
    Except PyError (List Char) :=
  match chunks schema ex with
  | .ok _ => .ok ex
  | .error e => .error e

/-- Reinsert the annotation markup of one chunk: a text chunk contributes
its text, an entity chunk contributes dollar, name, opening brace, value,
closing brace. -/
def renderChunk : UtteranceChunk → List Char
  | .textUtteranceChunk t => t
  | .entityUtteranceChunk _ n v => '$' :: (n ++ '{' :: (v ++ ['}']))

/-- Concatenation of the rendered chunks, in order. -/
def renderChunks : List UtteranceChunk → List Char
  | [] => []
  | c :: cs => renderChunk c ++ renderChunks cs

/-! ## Responses and the language data loader

YAML-decoded Python values are modelled by `PyObj`; mapping keys are
strings, as produced by the YAML files of this repository. -/

/-- A YAML-decoded Python value. -/
inductive PyObj where
  | str (s : String)
  | int (n : Int)
  | bool (b : Bool)
  | list (items : List PyObj)
  | dict (entries : List (String × PyObj))
  | none

/-- Python truthiness (`if not language_data`) for the values above. -/
def PyObj.isTruthy : PyObj → Bool
  | .str s => !(s == "")
  | .int n => !(n == 0)
  | .bool b => b
  | .list items => !items.isEmpty
  | .dict entries => !entries.isEmpty
  | .none => false

/-- Python `len` on the values above: characters of a string, items of a
list, keys of a dict; other values raise `TypeError`. -/
def pyLen : PyObj → Except PyError Nat
  | .str s => .ok s.length
  | .list items => .ok items.length
  | .dict entries => .ok entries.length
  | _ => .error .typeError

/-- `dict.get(key, default)`, raising `TypeError` when the receiver is not
a mapping (Python raises `AttributeError`; both are folded into the
model's `typeError` since the loader treats every exception alike). -/
def pyGet (d : PyObj) (key : String) (dflt : PyObj) : Except PyError PyObj :=
  match d with
  | .dict entries =>
    .ok (match entries.lookup key with
         | some value => value
         | Option.none => dflt)
  | _ => .error .typeError

/-- `IntentResponseGroup`: the enum of the two response groups. -/
inductive IntentResponseGroup where
  | default
  | rich
deriving DecidableEq

/-- `IntentResponseGroup(value)`: decode a group name, `none` modelling
the `ValueError` the enum constructor raises on any other string. -/
def IntentResponseGroup.ofName : String → Option IntentResponseGroup
  | "default" => some .default
  | "rich" => some .rich
  | _ => Option.none

/-- The `IntentResponse` dataclasses.  Field values coming from YAML are
kept as `PyObj`, as Python performs no type check on them. -/
inductive IntentResponse where
  | textIntentResponse (choices : List PyObj)
  | quickRepliesIntentResponse (replies : List PyObj)
  | imageIntentResponse (url : PyObj) (title : PyObj)
  | cardIntentResponse (title : PyObj) (subtitle : PyObj) (image : PyObj) (link : PyObj)
  | customPayloadIntentResponse (name : String) (payload : List (String × PyObj))

/-- `TextIntentResponse.from_yaml`: a string becomes a single choice, a
list is used directly, anything else fails the `assert`. -/
def TextIntentResponse.from_yaml : PyObj → Except PyError IntentResponse
  | .str s => .ok (.textIntentResponse [.str s])
  | .list items => .ok (.textIntentResponse items)
  | _ => .error .assertionError

/-- `QuickRepliesIntentResponse.__post_init__`: walk the replies and fail
on the first one longer than 20 characters. -/
def checkReplies : List PyObj → Except PyError Unit
  | [] => .ok ()
  | rep :: rest =>
    match pyLen rep with
    | .error e => .error e
    | .ok n =>
      if n > 20 then
        .error (.quickReplyTooLong (match rep with | .str s => s | _ => "") n)
      else checkReplies rest

/-- `QuickRepliesIntentResponse.from_yaml`: a string becomes a single
reply, a list is used directly, anything else fails the `assert`; then
`__post_init__` checks every reply's length. -/
def QuickRepliesIntentResponse.from_yaml (data : PyObj) :
    Except PyError IntentResponse :=
  match data with
  | .str s =>
    (match checkReplies [.str s] with
     | .ok _ => .ok (.quickRepliesIntentResponse [.str s])
     | .error e => .error e)
  | .list items =>
    (match checkReplies items with
     | .ok _ => .ok (.quickRepliesIntentResponse items)
     | .error e => .error e)
  | _ => .error .assertionError

/-- `ImageIntentResponse.from_yaml`: a string is the url with no title;
a dict is splatted into the constructor (`url` required, `title`
optional, any other keyword fails), anything else fails the `assert`. -/
def ImageIntentResponse.from_yaml (data : PyObj) :
    Except PyError IntentResponse :=
  match data with
  | .str s => .ok (.imageIntentResponse (.str s) .none)
  | .dict entries =>
    if entries.all (fun e => e.1 == "url" || e.1 == "title") then
      match entries.lookup "url" with
      | some url =>
        .ok (.imageIntentResponse url
          (match entries.lookup "title" with
           | some t => t
           | Option.none => .none))
      | Option.none => .error .typeError
    else .error .typeError
  | _ => .error .assertionError

/-- `CardIntentResponse` has no custom `from_yaml`: the base
`IntentResponse.from_yaml` splats the dict into the constructor
(`title` required, `subtitle`, `image`, `link` optional, any other
keyword or a non-dict fails with `TypeError`). -/
def CardIntentResponse.from_yaml (data : PyObj) :
    Except PyError IntentResponse :=
  match data with
  | .dict entries =>
    if entries.all (fun e =>
        e.1 == "title" || e.1 == "subtitle" || e.1 == "image" || e.1 == "link") then
      match entries.lookup "title" with
      | some title =>
        .ok (.cardIntentResponse title
          (match entries.lookup "subtitle" with
           | some x => x
           | Option.none => .none)
          (match entries.lookup "image" with
           | some x => x
           | Option.none => .none)
          (match entries.lookup "link" with
           | some x => x
           | Option.none => .none))
      | Option.none => .error .typeError
    else .error .typeError
  | _ => .error .typeError

/-- `CustomPayloadIntentResponse.from_yaml`: the input must be a mapping
with exactly one key, whose value is itself a mapping; the key is the
payload name and the value the payload. -/
def CustomPayloadIntentResponse.from_yaml (data : PyObj) :
    Except PyError IntentResponse :=
  match data with
  | .dict entries =>
    match entries with
    | [(payload_name, .dict payload)] =>
      .ok (.customPayloadIntentResponse payload_name payload)
    | [(payload_name, _)] => .error (.malformedPayloadContentNotDict payload_name)
    | _ => .error (.malformedPayloadKeyCount entries.length)
  | _ => .error .malformedPayloadNotDict

/-- The inner loop body of `_build_responses`: one response record `r`
must be a single-key mapping (`assert len(r) == 1`); in the default group
any type other than `text` is rejected before dispatch; then the record
is dispatched on its key. -/
def buildResponseItem (group : IntentResponseGroup) (r : PyObj) :
    Except PyError IntentResponse :=
  match r with
  | .dict [(r_type, r_data)] =>
    if group = IntentResponseGroup.default ∧ r_type ≠ "text" then
      .error (.invalidResponseGroup r_type)
    else if r_type = "text" then TextIntentResponse.from_yaml r_data
    else if r_type = "quick_replies" then QuickRepliesIntentResponse.from_yaml r_data
    else if r_type = "image" then ImageIntentResponse.from_yaml r_data
    else if r_type = "card" then CardIntentResponse.from_yaml r_data
    else if r_type = "custom" then CustomPayloadIntentResponse.from_yaml r_data
    else .error (.unsupportedResponseType r_type)
  | .dict _ => .error .assertionError
  | _ => .error .typeError

/-- The per-group loop of `_build_responses`, in input order. -/
def buildGroupResponses (group : IntentResponseGroup) :
    List PyObj → Except PyError (List IntentResponse)
  | [] => .ok []
  | r :: rest =>
    match buildResponseItem group r with
    | .error e => .error e
    | .ok item =>
      match buildGroupResponses group rest with
      | .error e => .error e
      | .ok items => .ok (item :: items)

/-- The outer loop of `_build_responses` over the group entries of the
`responses` section, in input order. -/
def buildResponseGroups :
    List (String × PyObj) → Except PyError (List (IntentResponseGroup × List IntentResponse))
  | [] => .ok []
  | (group_name, responses) :: rest =>
    match IntentResponseGroup.ofName group_name with
    | Option.none => .error (.unsupportedResponseGroup group_name)
    | some group =>
      match responses with
      | .list items =>
        (match buildGroupResponses group items with
         | .error e => .error e
         | .ok built =>
           match buildResponseGroups rest with
           | .error e => .error e
           | .ok tail => .ok ((group, built) :: tail))
      | _ => .error .typeError

/-- `_build_responses`: the `responses` section must be a mapping whose
entries are decoded group by group. -/
def build_responses (responses_data : PyObj) :
    Except PyError (List (IntentResponseGroup × List IntentResponse)) :=
  match responses_data with
  | .dict entries => buildResponseGroups entries
  | _ => .error .typeError

/-- The list comprehension `[ExampleUtterance(s, intent_cls) for s in
examples_data]`; each entry of the `examples` section must be a string
(a non-string entry is folded into `typeError`). -/
def buildExamples (schema : ParameterSchema) :
    List PyObj → Except PyError (List (List Char))
  | [] => .ok []
  | .str s :: rest =>
    (match ExampleUtterance.mk schema s.toList with
     | .error e => .error e
     | .ok ex =>
       match buildExamples schema rest with
       | .error e => .error e
       | .ok exs => .ok (ex :: exs))
  | _ :: _ => .error .typeError

/-- The `responses` field of `IntentLanguageData` as the loader actually
builds it: the normal path stores the mapping produced by
`_build_responses`, while the null-document path stores a literal Python
empty list (the code writes `IntentLanguageData([], {}, [])` although the
field is declared as a `Dict`). -/
inductive ResponsesField where
  | asDict (groups : List (IntentResponseGroup × List IntentResponse))
  | asList (items : List IntentResponse)

/-- `IntentLanguageData`: `slot_filling_prompts` is stored exactly as
read from the document (`language_data.get('slot_filling_prompts', {})`),
with no validation. -/
structure IntentLanguageData where
  example_utterances : List (List Char)
  slot_filling_prompts : PyObj
  responses : ResponsesField

/-- The loader's return value: the normal path returns a one-entry dict
keyed by language code, while the null-document path returns the bare
`IntentLanguageData`. -/
inductive LoaderResult where
  | bare (data : IntentLanguageData)
  | keyed (language_code : String) (data : IntentLanguageData)

/-- The wrapping error of the loader's top-level `except` clause: a
`RuntimeError` naming the intent, chained to the original cause. -/
inductive LoadError where
  | languageLoadError (intent_name : String) (cause : PyError)

/-- The body of the `try` block of `intent_language_data`, from the point
where the YAML document has been parsed (file discovery and YAML parsing
are outside the embedding): the falsy-document short circuit, then the
decoding of the three sections. -/
def intentLanguageDataInner (schema : ParameterSchema) (language_code : String)
    (language_data : PyObj) : Except PyError LoaderResult :=
  if !language_data.isTruthy then
    .ok (.bare ⟨[], .dict [], .asList []⟩)
  else
    match pyGet language_data "examples" (.list []) with
    | .error e => .error e
    | .ok examples_data =>
      match pyGet language_data "responses" (.list []) with
      | .error e => .error e
      | .ok responses_data =>
        match (match examples_data with
               | .list items => buildExamples schema items
               | _ => .error .typeError) with
        | .error e => .error e
        | .ok examples =>
          match build_responses responses_data with
          | .error e => .error e
          | .ok responses =>
            match pyGet language_data "slot_filling_prompts" (.dict []) with
            | .error e => .error e
            | .ok prompts =>
              .ok (.keyed language_code ⟨examples, prompts, .asDict responses⟩)

/-- `intent_language_data` for one language: the whole body runs inside a
`try` whose `except` re-raises every exception as a `RuntimeError` naming
the intent, with the original exception as the chained cause. -/
def intent_language_data (intent_name : String) (schema : ParameterSchema)
    (language_code : String) (language_data : PyObj) :
    Except LoadError LoaderResult :=
  match intentLanguageDataInner schema language_code language_data with
  | .ok result => .ok result
  | .error e => .error (.languageLoadError intent_name e)

/-- A two-parameter schema used by the concrete witnesses. -/
def sampleSchema : ParameterSchema := [(['a'], ⟨⟨1⟩⟩), (['b'], ⟨⟨2⟩⟩)]

/-! ## Properties of `matchAtHead` -/

theorem takeWhile_append_stop {p : Char → Bool} (l : List Char) (c : Char)
    (r : List Char) (hl : ∀ x ∈ l, p x = true) (hc : p c = false) :
    (l ++ c :: r).takeWhile p = l := by
  induction l with
  | nil => simp [List.takeWhile_cons, hc]
  | cons a l ih =>
    have ha : p a = true := hl a (by simp)
    simp only [List.cons_append, List.takeWhile_cons, ha, if_true]
    rw [ih (fun x hx => hl x (by simp [hx]))]

theorem dropWhile_append_stop {p : Char → Bool} (l : List Char) (c : Char)
    (r : List Char) (hl : ∀ x ∈ l, p x = true) (hc : p c = false) :
    (l ++ c :: r).dropWhile p = c :: r := by
  induction l with
  | nil => simp [List.dropWhile_cons, hc]
  | cons a l ih =>
    have ha : p a = true := hl a (by simp)
    simp only [List.cons_append, List.dropWhile_cons, ha, if_true]
    exact ih (fun x hx => hl x (by simp [hx]))

/-- Soundness of the anchored matcher: a successful match decomposes the
input as dollar, name, opening brace, value, closing brace, rest, with a
non-empty all-word-character name and a non-empty brace-free value. -/
theorem matchAtHead_some {s n v r : List Char}
    (h : matchAtHead s = some (n, v, r)) :
    s = '$' :: (n ++ '{' :: (v ++ '}' :: r)) ∧
      n ≠ [] ∧ v ≠ [] ∧ (∀ c ∈ n, isWordChar c = true) ∧
      (∀ c ∈ v, (c != '}') = true) := by
  unfold matchAtHead at h
  split at h
  case h_2 => exact absurd h (by simp)
  case h_1 s rest =>
    split at h
    case h_2 => exact absurd h (by simp)
    case h_1 r2 hdw =>
      split at h
      case isTrue => exact absurd h (by simp)
      case isFalse hne =>
        split at h
        case h_2 => exact absurd h (by simp)
        case h_1 r4 hdw2 =>
          split at h
          case isTrue => exact absurd h (by simp)
          case isFalse hve =>
            rw [Option.some.injEq] at h
            injection h with h1 h2
            injection h2 with h2 h3
            subst h1 h2 h3
            refine ⟨?_, ?_, ?_, ?_, ?_⟩
            · have hs1 := List.takeWhile_append_dropWhile (p := isWordChar) (l := rest)
              have hs2 := List.takeWhile_append_dropWhile
                (p := fun c => c != '}') (l := r2)
              conv_lhs => rw [← hs1, hdw, ← hs2, hdw2]
            · simpa [List.isEmpty_iff] using hne
            · simpa [List.isEmpty_iff] using hve
            · intro c hc; exact List.mem_takeWhile_imp hc
            · intro c hc
              simpa using List.mem_takeWhile_imp (p := fun x => x != '}') hc

/-- Completeness of the anchored matcher: a well-formed annotation at the
head of the input is matched, whatever follows it. -/
theorem matchAtHead_construct (n v r : List Char) (hn : n ≠ [])
    (hnw : ∀ c ∈ n, isWordChar c = true) (hv : v ≠ [])
    (hvb : ∀ c ∈ v, (c != '}') = true) :
    matchAtHead ('$' :: (n ++ '{' :: (v ++ '}' :: r))) = some (n, v, r) := by
  have hbrace : isWordChar '{' = false := by decide
  have hrb : (('}' : Char) != '}') = false := by decide
  have ht1 : (n ++ '{' :: (v ++ '}' :: r)).takeWhile isWordChar = n :=
    takeWhile_append_stop n '{' _ hnw hbrace
  have hd1 : (n ++ '{' :: (v ++ '}' :: r)).dropWhile isWordChar =
      '{' :: (v ++ '}' :: r) :=
    dropWhile_append_stop n '{' _ hnw hbrace
  have ht2 : (v ++ '}' :: r).takeWhile (fun c => c != '}') = v :=
    takeWhile_append_stop v '}' r hvb hrb
  have hd2 : (v ++ '}' :: r).dropWhile (fun c => c != '}') = '}' :: r :=
    dropWhile_append_stop v '}' r hvb hrb
  simp [matchAtHead, hd1, ht1, hd2, ht2, List.isEmpty_iff, hn, hv]

/-- A successful match consumes at least the two braces and the dollar. -/
theorem matchAtHead_length {s n v r : List Char}
    (h : matchAtHead s = some (n, v, r)) : r.length + 3 ≤ s.length := by
  obtain ⟨hs, -, -, -, -⟩ := matchAtHead_some h
  subst hs
  simp [List.length_append]
  omega

/-- The matcher only fires on a dollar sign. -/
theorem matchAtHead_not_dollar {c : Char} (t : List Char) (hc : c ≠ '$') :
    matchAtHead (c :: t) = none := by
  unfold matchAtHead
  split
  case h_2 => rfl
  case h_1 rest h =>
    injection h with h1 h2
    exact absurd h1 hc

/-! ## Unfolding lemmas for `chunksAux` -/

theorem chunksAux_nil (schema : ParameterSchema) (fuel pos : Nat)
    (pending : List Char) :
    chunksAux schema fuel [] pos pending =
      .ok (if pending.isEmpty then [] else [.textUtteranceChunk pending]) := by
  cases fuel <;> rfl

/-- One scan step when a match fires at the current position and its
parameter name is in the schema. -/
theorem chunksAux_match_step (schema : ParameterSchema) (fuel : Nat)
    {s n v r : List Char} (pos : Nat) (pending : List Char)
    {spec : NluIntentParameter}
    (hm : matchAtHead s = some (n, v, r))
    (hlk : schemaLookup schema n = some spec) :
    chunksAux schema (fuel + 1) s pos pending =
      match chunksAux schema fuel r (pos + (n.length + v.length + 3)) [] with
      | .ok tail =>
        .ok ((if pos > 0 then [.textUtteranceChunk pending] else []) ++
          .entityUtteranceChunk spec.entity_cls n v :: tail)
      | .error e => .error e := by
  obtain ⟨hs, -, -, -, -⟩ := matchAtHead_some hm
  subst hs
  simp only [chunksAux, hm, hlk]

/-- One scan step when a match fires whose parameter name is missing from
the schema. -/
theorem chunksAux_unknown_step (schema : ParameterSchema) (fuel : Nat)
    {s n v r : List Char} (pos : Nat) (pending : List Char)
    (hm : matchAtHead s = some (n, v, r))
    (hlk : schemaLookup schema n = none) :
    chunksAux schema (fuel + 1) s pos pending =
      .error (.unknownParameter n) := by
  obtain ⟨hs, -, -, -, -⟩ := matchAtHead_some hm
  subst hs
  simp only [chunksAux, hm, hlk]

/-- One scan step when no match fires at the current position. -/
theorem chunksAux_advance_step (schema : ParameterSchema) (fuel : Nat)
    {c : Char} {rest : List Char} (pos : Nat) (pending : List Char)
    (hm : matchAtHead (c :: rest) = none) :
    chunksAux schema (fuel + 1) (c :: rest) pos pending =
      chunksAux schema fuel rest (pos + 1) (pending ++ [c]) := by
  simp only [chunksAux, hm]

/-! ## Master lemmas about the scan -/

theorem renderChunks_append (a b : List UtteranceChunk) :
    renderChunks (a ++ b) = renderChunks a ++ renderChunks b := by
  induction a with
  | nil => rfl
  | cons c cs ih => simp [renderChunks, ih]

/-- The scan result does not depend on the exact amount of fuel, as long
as there is enough of it. -/
theorem chunksAux_fuel_irrel (schema : ParameterSchema) :
    ∀ (f g : Nat) (s : List Char) (pos : Nat) (pending : List Char),
      s.length ≤ f → s.length ≤ g →
      chunksAux schema f s pos pending = chunksAux schema g s pos pending := by
  intro f
  induction f with
  | zero =>
    intro g s pos pending hf hg
    have hs : s = [] := List.eq_nil_of_length_eq_zero (Nat.le_zero.mp hf)
    subst hs
    rw [chunksAux_nil, chunksAux_nil]
  | succ f ih =>
    intro g s pos pending hf hg
    cases s with
    | nil => rw [chunksAux_nil, chunksAux_nil]
    | cons c rest =>
      cases g with
      | zero => simp at hg
      | succ g =>
        cases hm : matchAtHead (c :: rest) with
        | some nvr =>
          obtain ⟨n, v, r⟩ := nvr
          have hlen := matchAtHead_length hm
          simp only [List.length_cons] at hf hg hlen
          cases hlk : schemaLookup schema n with
          | none =>
            rw [chunksAux_unknown_step schema f pos pending hm hlk,
              chunksAux_unknown_step schema g pos pending hm hlk]
          | some spec =>
            rw [chunksAux_match_step schema f pos pending hm hlk,
              chunksAux_match_step schema g pos pending hm hlk,
              ih g r (pos + (n.length + v.length + 3)) [] (by omega) (by omega)]
        | none =>
          rw [chunksAux_advance_step schema f pos pending hm,
            chunksAux_advance_step schema g pos pending hm,
            ih g rest (pos + 1) (pending ++ [c]) (by simpa using Nat.le_of_succ_le_succ hf)
              (by simpa using Nat.le_of_succ_le_succ hg)]

/-- The scan result depends on the position only through its positivity:
the position is only read by the `m_start > 0` test, and it only grows. -/
theorem chunksAux_pos_irrel (schema : ParameterSchema) :
    ∀ (fuel : Nat) (s : List Char) (p q : Nat) (pending : List Char),
      0 < p → 0 < q →
      chunksAux schema fuel s p pending = chunksAux schema fuel s q pending := by
  intro fuel
  induction fuel with
  | zero =>
    intro s p q pending hp hq
    cases s <;> rfl
  | succ f ih =>
    intro s p q pending hp hq
    cases s with
    | nil => rw [chunksAux_nil, chunksAux_nil]
    | cons c rest =>
      cases hm : matchAtHead (c :: rest) with
      | some nvr =>
        obtain ⟨n, v, r⟩ := nvr
        cases hlk : schemaLookup schema n with
        | none =>
          rw [chunksAux_unknown_step schema f p pending hm hlk,
            chunksAux_unknown_step schema f q pending hm hlk]
        | some spec =>
          rw [chunksAux_match_step schema f p pending hm hlk,
            chunksAux_match_step schema f q pending hm hlk,
            ih r (p + (n.length + v.length + 3)) (q + (n.length + v.length + 3)) []
              (by omega) (by omega)]
          simp [hp, hq]
      | none =>
        rw [chunksAux_advance_step schema f p pending hm,
          chunksAux_advance_step schema f q pending hm,
          ih rest (p + 1) (q + 1) (pending ++ [c]) (by omega) (by omega)]

/-- Round-trip invariant of the scan: on success, re-rendering the chunks
reproduces the pending text followed by the unscanned input. -/
theorem chunksAux_roundtrip (schema : ParameterSchema) :
    ∀ (fuel : Nat) (s : List Char) (pos : Nat) (pending : List Char)
      (cs : List UtteranceChunk),
      s.length ≤ fuel → (pos = 0 → pending = []) →
      chunksAux schema fuel s pos pending = .ok cs →
      renderChunks cs = pending ++ s := by
  intro fuel
  induction fuel with
  | zero =>
    intro s pos pending cs hf hpos h
    have hs : s = [] := List.eq_nil_of_length_eq_zero (Nat.le_zero.mp hf)
    subst hs
    rw [chunksAux_nil] at h
    by_cases hp : pending.isEmpty
    · simp [hp] at h
      subst h
      simp [renderChunks, List.isEmpty_iff.mp hp]
    · simp [hp] at h
      subst h
      simp [renderChunks, renderChunk]
  | succ f ih =>
    intro s pos pending cs hf hpos h
    cases s with
    | nil =>
      rw [chunksAux_nil] at h
      by_cases hp : pending.isEmpty
      · simp [hp] at h
        subst h
        simp [renderChunks, List.isEmpty_iff.mp hp]
      · simp [hp] at h
        subst h
        simp [renderChunks, renderChunk]
    | cons c rest =>
      cases hm : matchAtHead (c :: rest) with
      | some nvr =>
        obtain ⟨n, v, r⟩ := nvr
        have hlen := matchAtHead_length hm
        obtain ⟨hs, -, -, -, -⟩ := matchAtHead_some hm
        cases hlk : schemaLookup schema n with
        | none =>
          rw [chunksAux_unknown_step schema f pos pending hm hlk] at h
          exact absurd h (by simp)
        | some spec =>
          rw [chunksAux_match_step schema f pos pending hm hlk] at h
          revert h
          cases hrec : chunksAux schema f r (pos + (n.length + v.length + 3)) [] with
          | error e => intro h; exact absurd h (by simp)
          | ok tail =>
            intro h
            simp only [Except.ok.injEq] at h
            subst h
            have htail : renderChunks tail = [] ++ r := by
              apply ih r (pos + (n.length + v.length + 3)) [] tail ?_ (fun _ => rfl) hrec
              simp only [List.length_cons] at hf hlen
              omega
            simp only [List.nil_append] at htail
            rw [renderChunks_append]
            by_cases hpos0 : pos > 0
            · simp only [hpos0, if_true]
              simp [renderChunks, renderChunk, htail, hs]
            · have : pos = 0 := by omega
              have hpend : pending = [] := hpos this
              simp only [hpos0, if_false]
              simp [renderChunks, renderChunk, htail, hs, hpend]
      | none =>
        rw [chunksAux_advance_step schema f pos pending hm] at h
        have := ih rest (pos + 1) (pending ++ [c]) cs
          (by simpa using Nat.le_of_succ_le_succ hf) (by omega) h
        simpa using this

/-! ## The scan versus its match list -/

theorem findMatchesFuel_nil (fuel : Nat) : findMatchesFuel fuel [] = [] := by
  cases fuel <;> rfl

theorem findMatchesFuel_match_step (fuel : Nat) {c : Char}
    {rest n v r : List Char} (hm : matchAtHead (c :: rest) = some (n, v, r)) :
    findMatchesFuel (fuel + 1) (c :: rest) = (n, v) :: findMatchesFuel fuel r := by
  simp only [findMatchesFuel, hm]

theorem findMatchesFuel_advance_step (fuel : Nat) {c : Char}
    {rest : List Char} (hm : matchAtHead (c :: rest) = none) :
    findMatchesFuel (fuel + 1) (c :: rest) = findMatchesFuel fuel rest := by
  simp only [findMatchesFuel, hm]

theorem findMatchesPosFuel_nil (fuel pos : Nat) :
    findMatchesPosFuel fuel [] pos = [] := by
  cases fuel <;> rfl

theorem findMatchesPosFuel_match_step (fuel pos : Nat) {c : Char}
    {rest n v r : List Char} (hm : matchAtHead (c :: rest) = some (n, v, r)) :
    findMatchesPosFuel (fuel + 1) (c :: rest) pos =
      (pos, n, v) ::
        findMatchesPosFuel fuel r (pos + (n.length + v.length + 3)) := by
  simp only [findMatchesPosFuel, hm]

theorem findMatchesPosFuel_advance_step (fuel pos : Nat) {c : Char}
    {rest : List Char} (hm : matchAtHead (c :: rest) = none) :
    findMatchesPosFuel (fuel + 1) (c :: rest) pos =
      findMatchesPosFuel fuel rest (pos + 1) := by
  simp only [findMatchesPosFuel, hm]

/-- Recorded match positions never precede the scan position. -/
theorem findMatchesPosFuel_pos_le :
    ∀ (fuel : Nat) (s : List Char) (pos : Nat)
      (entry : Nat × List Char × List Char),
      entry ∈ findMatchesPosFuel fuel s pos → pos ≤ entry.1 := by
  intro fuel
  induction fuel with
  | zero =>
    intro s pos entry h
    cases s <;> simp [findMatchesPosFuel] at h
  | succ f ih =>
    intro s pos entry h
    cases s with
    | nil => simp [findMatchesPosFuel_nil] at h
    | cons c rest =>
      cases hm : matchAtHead (c :: rest) with
      | some nvr =>
        obtain ⟨n, v, r⟩ := nvr
        rw [findMatchesPosFuel_match_step f pos hm] at h
        rcases List.mem_cons.mp h with rfl | h2
        · exact le_rfl
        · have := ih r (pos + (n.length + v.length + 3)) entry h2
          omega
      | none =>
        rw [findMatchesPosFuel_advance_step f pos hm] at h
        have := ih rest (pos + 1) entry h
        omega

/-- If the first recorded match sits exactly at the scan position, then
the matcher fires at the head of the remainder, with those captures. -/
theorem findMatchesPosFuel_head_at_start :
    ∀ (fuel : Nat) (s : List Char) (pos : Nat) (n v : List Char)
      (post : List (Nat × List Char × List Char)),
      findMatchesPosFuel fuel s pos = (pos, n, v) :: post →
      ∃ r, matchAtHead s = some (n, v, r) := by
  intro fuel
  induction fuel with
  | zero =>
    intro s pos n v post h
    cases s <;> simp [findMatchesPosFuel] at h
  | succ f ih =>
    intro s pos n v post h
    cases s with
    | nil => simp [findMatchesPosFuel_nil] at h
    | cons c rest =>
      cases hm : matchAtHead (c :: rest) with
      | some nvr =>
        obtain ⟨n2, v2, r⟩ := nvr
        rw [findMatchesPosFuel_match_step f pos hm] at h
        simp only [List.cons.injEq] at h
        obtain ⟨hhead, -⟩ := h
        injection hhead with h1 h2
        injection h2 with h2 h3
        subst h2 h3
        exact ⟨r, rfl⟩
      | none =>
        rw [findMatchesPosFuel_advance_step f pos hm] at h
        have hmem : ((pos, n, v) : Nat × List Char × List Char) ∈
            findMatchesPosFuel f rest (pos + 1) := by
          rw [h]
          simp
        have := findMatchesPosFuel_pos_le f rest (pos + 1) (pos, n, v) hmem
        omega

/-- The scan succeeds whenever every matched parameter name is found in
the schema (the schema lookups never raise). -/
theorem chunksAux_ok_of_known (schema : ParameterSchema) :
    ∀ (fuel : Nat) (s : List Char) (pos : Nat) (pending : List Char),
      s.length ≤ fuel →
      (∀ p ∈ findMatchesFuel fuel s, (schemaLookup schema p.1).isSome) →
      ∃ cs, chunksAux schema fuel s pos pending = .ok cs := by
  intro fuel
  induction fuel with
  | zero =>
    intro s pos pending hf hknown
    have hs : s = [] := List.eq_nil_of_length_eq_zero (Nat.le_zero.mp hf)
    subst hs
    exact ⟨_, chunksAux_nil schema 0 pos pending⟩
  | succ f ih =>
    intro s pos pending hf hknown
    cases s with
    | nil => exact ⟨_, chunksAux_nil schema (f + 1) pos pending⟩
    | cons c rest =>
      cases hm : matchAtHead (c :: rest) with
      | some nvr =>
        obtain ⟨n, v, r⟩ := nvr
        have hlen := matchAtHead_length hm
        have hn : (schemaLookup schema n).isSome := by
          apply hknown (n, v)
          rw [findMatchesFuel_match_step f hm]
          simp
        obtain ⟨spec, hlk⟩ := Option.isSome_iff_exists.mp hn
        obtain ⟨tail, htail⟩ := ih r (pos + (n.length + v.length + 3)) []
          (by simp only [List.length_cons] at hf hlen; omega)
          (by
            intro p hp
            apply hknown p
            rw [findMatchesFuel_match_step f hm]
            simp [hp])
        rw [chunksAux_match_step schema f pos pending hm hlk, htail]
        exact ⟨_, rfl⟩
      | none =>
        obtain ⟨cs, hcs⟩ := ih rest (pos + 1) (pending ++ [c])
          (by simpa using Nat.le_of_succ_le_succ hf)
          (by
            intro p hp
            apply hknown p
            rw [findMatchesFuel_advance_step f hm]
            exact hp)
        rw [chunksAux_advance_step schema f pos pending hm]
        exact ⟨cs, hcs⟩

/-- Conversely, a successful scan implies every matched parameter name is
found in the schema: an example with an out-of-schema annotation can
never scan successfully. -/
theorem chunksAux_ok_all_known (schema : ParameterSchema) :
    ∀ (fuel : Nat) (s : List Char) (pos : Nat) (pending : List Char)
      (cs : List UtteranceChunk),
      s.length ≤ fuel →
      chunksAux schema fuel s pos pending = .ok cs →
      ∀ p ∈ findMatchesFuel fuel s, (schemaLookup schema p.1).isSome := by
  intro fuel
  induction fuel with
  | zero =>
    intro s pos pending cs hf h p hp
    have hs : s = [] := List.eq_nil_of_length_eq_zero (Nat.le_zero.mp hf)
    subst hs
    simp [findMatchesFuel_nil] at hp
  | succ f ih =>
    intro s pos pending cs hf h p hp
    cases s with
    | nil => simp [findMatchesFuel_nil] at hp
    | cons c rest =>
      cases hm : matchAtHead (c :: rest) with
      | some nvr =>
        obtain ⟨n, v, r⟩ := nvr
        have hlen := matchAtHead_length hm
        rw [findMatchesFuel_match_step f hm] at hp
        cases hlk : schemaLookup schema n with
        | none =>
          rw [chunksAux_unknown_step schema f pos pending hm hlk] at h
          exact absurd h (by simp)
        | some spec =>
          rcases List.mem_cons.mp hp with rfl | hp2
          · simp [hlk]
          · rw [chunksAux_match_step schema f pos pending hm hlk] at h
            revert h
            cases hrec : chunksAux schema f r (pos + (n.length + v.length + 3)) [] with
            | error e => intro h; exact absurd h (by simp)
            | ok tail =>
              intro h
              exact ih r (pos + (n.length + v.length + 3)) [] tail
                (by simp only [List.length_cons] at hf hlen; omega) hrec p hp2
      | none =>
        rw [chunksAux_advance_step schema f pos pending hm] at h
        rw [findMatchesFuel_advance_step f hm] at hp
        exact ih rest (pos + 1) (pending ++ [c]) cs
          (by simpa using Nat.le_of_succ_le_succ hf) h p hp

/-- Whenever the successful scan's positioned match list contains two
consecutive matches the second of which starts exactly where the first
ends, the chunk output contains, consecutively, the first entity chunk,
a text chunk with EMPTY text, and the second entity chunk. -/
theorem chunksAux_adjacent_pair (schema : ParameterSchema) :
    ∀ (fuel : Nat) (s : List Char) (pos : Nat) (pending : List Char)
      (cs : List UtteranceChunk)
      (pre post : List (Nat × List Char × List Char)) (p1 p2 : Nat)
      (n1 v1 n2 v2 : List Char),
      s.length ≤ fuel →
      chunksAux schema fuel s pos pending = .ok cs →
      findMatchesPosFuel fuel s pos = pre ++ (p1, n1, v1) :: (p2, n2, v2) :: post →
      p2 = p1 + (n1.length + v1.length + 3) →
      ∃ s1 s2 cs1 cs2,
        schemaLookup schema n1 = some s1 ∧ schemaLookup schema n2 = some s2 ∧
        cs = cs1 ++ .entityUtteranceChunk s1.entity_cls n1 v1 ::
          .textUtteranceChunk [] ::
          .entityUtteranceChunk s2.entity_cls n2 v2 :: cs2 := by
  intro fuel
  induction fuel with
  | zero =>
    intro s pos pending cs pre post p1 p2 n1 v1 n2 v2 hf h hm hadj
    have hs : s = [] := List.eq_nil_of_length_eq_zero (Nat.le_zero.mp hf)
    subst hs
    rw [findMatchesPosFuel_nil] at hm
    exact absurd hm.symm (by simp)
  | succ f ih =>
    intro s pos pending cs pre post p1 p2 n1 v1 n2 v2 hf h hm hadj
    cases s with
    | nil =>
      rw [findMatchesPosFuel_nil] at hm
      exact absurd hm.symm (by simp)
    | cons c rest =>
      cases hmh : matchAtHead (c :: rest) with
      | none =>
        rw [chunksAux_advance_step schema f pos pending hmh] at h
        rw [findMatchesPosFuel_advance_step f pos hmh] at hm
        exact ih rest (pos + 1) (pending ++ [c]) cs pre post p1 p2 n1 v1 n2 v2
          (by simpa using Nat.le_of_succ_le_succ hf) h hm hadj
      | some nvr =>
        obtain ⟨n, v, r⟩ := nvr
        have hlen := matchAtHead_length hmh
        cases hlk : schemaLookup schema n with
        | none =>
          rw [chunksAux_unknown_step schema f pos pending hmh hlk] at h
          exact absurd h (by simp)
        | some spec =>
          rw [chunksAux_match_step schema f pos pending hmh hlk] at h
          rw [findMatchesPosFuel_match_step f pos hmh] at hm
          revert h
          cases hrec : chunksAux schema f r (pos + (n.length + v.length + 3)) [] with
          | error e => intro h; exact absurd h (by simp)
          | ok tail =>
            intro h
            simp only [Except.ok.injEq] at h
            subst h
            cases pre with
            | cons q pre2 =>
              simp only [List.cons_append, List.cons.injEq] at hm
              obtain ⟨-, htl⟩ := hm
              obtain ⟨s1, s2, cs1, cs2, hs1, hs2, hcs⟩ :=
                ih r (pos + (n.length + v.length + 3)) [] tail pre2 post
                  p1 p2 n1 v1 n2 v2
                  (by simp only [List.length_cons] at hf hlen; omega) hrec htl hadj
              refine ⟨s1, s2,
                (if pos > 0 then [.textUtteranceChunk pending] else []) ++
                  .entityUtteranceChunk spec.entity_cls n v :: cs1, cs2,
                hs1, hs2, ?_⟩
              rw [hcs]
              simp
            | nil =>
              simp only [List.nil_append, List.cons.injEq] at hm
              obtain ⟨hhead, htl⟩ := hm
              injection hhead with e1 e2
              injection e2 with e2 e3
              subst e1 e2 e3
              subst hadj
              obtain ⟨r2, hmh2⟩ :=
                findMatchesPosFuel_head_at_start f r
                  (pos + (n.length + v.length + 3)) n2 v2 post htl
              cases f with
              | zero => simp only [List.length_cons] at hf hlen; omega
              | succ f2 =>
                cases hlk2 : schemaLookup schema n2 with
                | none =>
                  rw [chunksAux_unknown_step schema f2
                    (pos + (n.length + v.length + 3)) [] hmh2 hlk2] at hrec
                  exact absurd hrec (by simp)
                | some spec2 =>
                  rw [chunksAux_match_step schema f2
                    (pos + (n.length + v.length + 3)) [] hmh2 hlk2] at hrec
                  revert hrec
                  cases hrec2 : chunksAux schema f2 r2
                      (pos + (n.length + v.length + 3) +
                        (n2.length + v2.length + 3)) [] with
                  | error e => intro hrec; exact absurd hrec (by simp)
                  | ok tail2 =>
                    intro hrec
                    simp only [Except.ok.injEq] at hrec
                    have hpos : pos + (n.length + v.length + 3) > 0 := by omega
                    rw [if_pos hpos] at hrec
                    refine ⟨spec, spec2,
                      if pos > 0 then [.textUtteranceChunk pending] else [],
                      tail2, hlk, rfl, ?_⟩
                    rw [← hrec]
                    simp

/-- The scan only fails with an unknown-parameter error, and then the
offending parameter name is one of the scan's matches and is missing from
the schema. -/
theorem chunksAux_error_unknown (schema : ParameterSchema) :
    ∀ (fuel : Nat) (s : List Char) (pos : Nat) (pending : List Char)
      (e : PyError),
      s.length ≤ fuel →
      chunksAux schema fuel s pos pending = .error e →
      ∃ n v, (n, v) ∈ findMatchesFuel fuel s ∧ schemaLookup schema n = none ∧
        e = .unknownParameter n := by
  intro fuel
  induction fuel with
  | zero =>
    intro s pos pending e hf h
    have hs : s = [] := List.eq_nil_of_length_eq_zero (Nat.le_zero.mp hf)
    subst hs
    rw [chunksAux_nil] at h
    exact absurd h (by simp)
  | succ f ih =>
    intro s pos pending e hf h
    cases s with
    | nil =>
      rw [chunksAux_nil] at h
      exact absurd h (by simp)
    | cons c rest =>
      cases hm : matchAtHead (c :: rest) with
      | some nvr =>
        obtain ⟨n, v, r⟩ := nvr
        have hlen := matchAtHead_length hm
        cases hlk : schemaLookup schema n with
        | none =>
          rw [chunksAux_unknown_step schema f pos pending hm hlk] at h
          simp only [Except.error.injEq] at h
          refine ⟨n, v, ?_, hlk, h.symm⟩
          rw [findMatchesFuel_match_step f hm]
          simp
        | some spec =>
          rw [chunksAux_match_step schema f pos pending hm hlk] at h
          revert h
          cases hrec : chunksAux schema f r (pos + (n.length + v.length + 3)) [] with
          | ok tail => intro h; exact absurd h (by simp)
          | error e2 =>
            intro h
            simp only [Except.error.injEq] at h
            subst h
            obtain ⟨n2, v2, hmem, hlk2, he⟩ := ih r (pos + (n.length + v.length + 3)) [] e2
              (by simp only [List.length_cons] at hf hlen; omega) hrec
            refine ⟨n2, v2, ?_, hlk2, he⟩
            rw [findMatchesFuel_match_step f hm]
            simp [hmem]
      | none =>
        rw [chunksAux_advance_step schema f pos pending hm] at h
        obtain ⟨n2, v2, hmem, hlk2, he⟩ := ih rest (pos + 1) (pending ++ [c]) e
          (by simpa using Nat.le_of_succ_le_succ hf) h
        refine ⟨n2, v2, ?_, hlk2, he⟩
        rw [findMatchesFuel_advance_step f hm]
        exact hmem

/-- On a string with no annotation match, the scan yields the whole text
as a single text chunk (or nothing when the text is empty). -/
theorem chunksAux_no_match (schema : ParameterSchema) :
    ∀ (fuel : Nat) (s : List Char) (pos : Nat) (pending : List Char),
      s.length ≤ fuel → findMatchesFuel fuel s = [] →
      chunksAux schema fuel s pos pending =
        .ok (if (pending ++ s).isEmpty then []
             else [.textUtteranceChunk (pending ++ s)]) := by
  intro fuel
  induction fuel with
  | zero =>
    intro s pos pending hf hnm
    have hs : s = [] := List.eq_nil_of_length_eq_zero (Nat.le_zero.mp hf)
    subst hs
    rw [chunksAux_nil]
    simp
  | succ f ih =>
    intro s pos pending hf hnm
    cases s with
    | nil =>
      rw [chunksAux_nil]
      simp
    | cons c rest =>
      cases hm : matchAtHead (c :: rest) with
      | some nvr =>
        obtain ⟨n, v, r⟩ := nvr
        rw [findMatchesFuel_match_step f hm] at hnm
        exact absurd hnm (by simp)
      | none =>
        rw [chunksAux_advance_step schema f pos pending hm,
          ih rest (pos + 1) (pending ++ [c])
            (by simpa using Nat.le_of_succ_le_succ hf)
            (by rw [← findMatchesFuel_advance_step f hm]; exact hnm)]
        simp

/-- If no suffix of the input admits a match at its head, the scan finds
no matches at all. -/
theorem findMatchesFuel_nil_of_no_match :
    ∀ (fuel : Nat) (s : List Char),
      (∀ t, t <:+ s → matchAtHead t = none) →
      findMatchesFuel fuel s = [] := by
  intro fuel
  induction fuel with
  | zero => intro s h; cases s <;> rfl
  | succ f ih =>
    intro s h
    cases s with
    | nil => rfl
    | cons c rest =>
      rw [findMatchesFuel_advance_step f (h (c :: rest) List.suffix_rfl)]
      exact ih rest (fun t ht => h t (ht.trans (List.suffix_cons c rest)))

/-- Every entity chunk the scan emits carries a non-empty parameter name
and a non-empty parameter value. -/
theorem chunksAux_entity_nonempty (schema : ParameterSchema) :
    ∀ (fuel : Nat) (s : List Char) (pos : Nat) (pending : List Char)
      (cs : List UtteranceChunk),
      s.length ≤ fuel →
      chunksAux schema fuel s pos pending = .ok cs →
      ∀ ec n v, UtteranceChunk.entityUtteranceChunk ec n v ∈ cs →
        n ≠ [] ∧ v ≠ [] := by
  intro fuel
  induction fuel with
  | zero =>
    intro s pos pending cs hf h ec n v hmem
    have hs : s = [] := List.eq_nil_of_length_eq_zero (Nat.le_zero.mp hf)
    subst hs
    rw [chunksAux_nil] at h
    simp only [Except.ok.injEq] at h
    subst h
    by_cases hp : pending.isEmpty <;> simp [hp] at hmem
  | succ f ih =>
    intro s pos pending cs hf h ec n v hmem
    cases s with
    | nil =>
      rw [chunksAux_nil] at h
      simp only [Except.ok.injEq] at h
      subst h
      by_cases hp : pending.isEmpty <;> simp [hp] at hmem
    | cons c rest =>
      cases hm : matchAtHead (c :: rest) with
      | some nvr =>
        obtain ⟨n1, v1, r⟩ := nvr
        have hlen := matchAtHead_length hm
        obtain ⟨-, hn1, hv1, -, -⟩ := matchAtHead_some hm
        cases hlk : schemaLookup schema n1 with
        | none =>
          rw [chunksAux_unknown_step schema f pos pending hm hlk] at h
          exact absurd h (by simp)
        | some spec =>
          rw [chunksAux_match_step schema f pos pending hm hlk] at h
          revert h
          cases hrec : chunksAux schema f r (pos + (n1.length + v1.length + 3)) [] with
          | error e => intro h; exact absurd h (by simp)
          | ok tail =>
            intro h
            simp only [Except.ok.injEq] at h
            subst h
            rw [List.mem_append] at hmem
            rcases hmem with hpre | hrest
            · by_cases hpos0 : pos > 0 <;> simp [hpos0] at hpre
            · rcases List.mem_cons.mp hrest with hhead | htail
              · injection hhead with e1 e2 e3
                subst e2 e3
                exact ⟨hn1, hv1⟩
              · exact ih r (pos + (n1.length + v1.length + 3)) [] tail
                  (by simp only [List.length_cons] at hf hlen; omega) hrec ec n v htail
      | none =>
        rw [chunksAux_advance_step schema f pos pending hm] at h
        exact ih rest (pos + 1) (pending ++ [c]) cs
          (by simpa using Nat.le_of_succ_le_succ hf) h ec n v hmem

/-! ## Claims about the tokenizer -/

/-- C4: for every example string that tokenizes successfully,
concatenating the chunk sequence in order, with each text chunk
contributing its text and each entity chunk contributing the re-wrapped
annotation (dollar, name, opening brace, value, closing brace),
reconstructs the original example string exactly. -/
theorem chunks_render_roundtrip (schema : ParameterSchema) (s : List Char)
    (cs : List UtteranceChunk) (h : chunks schema s = .ok cs) :
    renderChunks cs = s := by
  have := chunksAux_roundtrip schema s.length s 0 [] cs le_rfl (fun _ => rfl) h
  simpa using this

theorem chunks_render_roundtrip_witness :
    renderChunks
        [.textUtteranceChunk ['M', 'y', ' '],
         .entityUtteranceChunk ⟨1⟩ ['a'] ['x'],
         .textUtteranceChunk ['!']] =
      ['M', 'y', ' ', '$', 'a', '{', 'x', '}', '!'] :=
  chunks_render_roundtrip sampleSchema
    ['M', 'y', ' ', '$', 'a', '{', 'x', '}', '!']
    [.textUtteranceChunk ['M', 'y', ' '],
     .entityUtteranceChunk ⟨1⟩ ['a'] ['x'],
     .textUtteranceChunk ['!']] rfl

/-- C5: for every parameter name in the schema (a non-empty run of word
characters, as Python identifiers are) and every non-empty value free of
closing braces, tokenizing the single annotation dollar-name-brace-value-
brace yields exactly one entity chunk carrying that name, that value and
the entity type the schema binds to the name. -/
theorem single_annotation_tokenizes_to_entity_chunk
    (schema : ParameterSchema) (name value : List Char)
    (spec : NluIntentParameter)
    (hn : name ≠ []) (hw : ∀ c ∈ name, isWordChar c = true)
    (hv : value ≠ []) (hb : ∀ c ∈ value, (c != '}') = true)
    (hlk : schemaLookup schema name = some spec) :
    chunks schema ('$' :: (name ++ '{' :: (value ++ ['}']))) =
      .ok [.entityUtteranceChunk spec.entity_cls name value] := by
  have hm : matchAtHead ('$' :: (name ++ '{' :: (value ++ '}' :: []))) =
      some (name, value, []) :=
    matchAtHead_construct name value [] hn hw hv hb
  show chunksAux schema
      ('$' :: (name ++ '{' :: (value ++ ['}']))).length
      ('$' :: (name ++ '{' :: (value ++ ['}']))) 0 [] = _
  simp only [List.length_cons]
  rw [chunksAux_match_step schema (name ++ '{' :: (value ++ ['}'])).length 0 [] hm hlk,
    chunksAux_nil]
  simp

theorem single_annotation_tokenizes_to_entity_chunk_witness :
    chunks sampleSchema ('$' :: (['a'] ++ '{' :: (['x'] ++ ['}']))) =
      .ok [.entityUtteranceChunk ⟨1⟩ ['a'] ['x']] :=
  single_annotation_tokenizes_to_entity_chunk sampleSchema ['a'] ['x'] ⟨⟨1⟩⟩
    (by decide) (by decide) (by decide) (by decide) rfl

/-- C6: constructing an `ExampleUtterance` validates eagerly: the
constructor itself runs the tokenizer, so (1) when every annotation of
the example names a schema parameter the construction succeeds (the
schema lookups never raise); (2) whenever some annotation of the example
names a parameter absent from the schema, construction FAILS immediately
with an unknown-parameter error naming an absent match; and (3) every
construction failure is such an unknown-parameter error. -/
theorem example_utterance_eager_validation (schema : ParameterSchema)
    (ex : List Char) :
    ((∀ p ∈ findMatches ex, (schemaLookup schema p.1).isSome) →
      ExampleUtterance.mk schema ex = .ok ex) ∧
    ((∃ p ∈ findMatches ex, schemaLookup schema p.1 = Option.none) →
      ∃ n v, (n, v) ∈ findMatches ex ∧ schemaLookup schema n = Option.none ∧
        ExampleUtterance.mk schema ex = .error (.unknownParameter n)) ∧
    (∀ e, ExampleUtterance.mk schema ex = .error e →
      ∃ n v, (n, v) ∈ findMatches ex ∧ schemaLookup schema n = Option.none ∧
        e = .unknownParameter n) := by
  refine ⟨?_, ?_, ?_⟩
  · intro hknown
    obtain ⟨cs, hcs⟩ := chunksAux_ok_of_known schema ex.length ex 0 [] le_rfl hknown
    unfold ExampleUtterance.mk chunks
    rw [hcs]
  · rintro ⟨p, hp, hnone⟩
    cases hch : chunks schema ex with
    | ok cs =>
      have hall := chunksAux_ok_all_known schema ex.length ex 0 [] cs le_rfl hch
      have hsome := hall p hp
      rw [hnone] at hsome
      exact absurd hsome (by simp)
    | error e =>
      have hch2 : chunksAux schema ex.length ex 0 [] = .error e := hch
      obtain ⟨n, v, hmem, hlk, hee⟩ :=
        chunksAux_error_unknown schema ex.length ex 0 [] e le_rfl hch2
      refine ⟨n, v, hmem, by simp [hlk], ?_⟩
      unfold ExampleUtterance.mk
      rw [hch, hee]
  · intro e he
    unfold ExampleUtterance.mk at he
    revert he
    cases hch : chunks schema ex with
    | ok cs => intro he; exact absurd he (by simp)
    | error e2 =>
      intro he
      simp only [Except.error.injEq] at he
      subst he
      have hch2 : chunksAux schema ex.length ex 0 [] = .error e2 := hch
      obtain ⟨n, v, hmem, hlk, hee⟩ :=
        chunksAux_error_unknown schema ex.length ex 0 [] e2 le_rfl hch2
      exact ⟨n, v, hmem, by simp [hlk], hee⟩

theorem example_utterance_eager_validation_witness :
    (ExampleUtterance.mk sampleSchema ['h', 'i', ' ', '$', 'a', '{', '1', '}'] =
      .ok ['h', 'i', ' ', '$', 'a', '{', '1', '}']) ∧
    (∃ n v, (n, v) ∈ findMatches ['$', 'c', '{', '1', '}'] ∧
      schemaLookup sampleSchema n = Option.none ∧
      ExampleUtterance.mk sampleSchema ['$', 'c', '{', '1', '}'] =
        .error (.unknownParameter n)) :=
  ⟨(example_utterance_eager_validation sampleSchema
      ['h', 'i', ' ', '$', 'a', '{', '1', '}']).1 (by decide),
   (example_utterance_eager_validation sampleSchema
      ['$', 'c', '{', '1', '}']).2.1 (by decide)⟩

/-- An annotation with an empty value does not match: the value class
requires at least one character. -/
theorem matchAtHead_empty_value (name : List Char)
    (hw : ∀ c ∈ name, isWordChar c = true) :
    matchAtHead ('$' :: (name ++ ['{', '}'])) = Option.none := by
  have hbrace : isWordChar '{' = false := by decide
  have ht1 : (name ++ '{' :: ['}']).takeWhile isWordChar = name :=
    takeWhile_append_stop name '{' ['}'] hw hbrace
  have hd1 : (name ++ '{' :: ['}']).dropWhile isWordChar = '{' :: ['}'] :=
    dropWhile_append_stop name '{' ['}'] hw hbrace
  by_cases hne : name.isEmpty
  · simp [matchAtHead, hd1, ht1, hne]
  · simp [matchAtHead, hd1, ht1, hne, List.takeWhile, List.dropWhile]

/-- A word character is never the dollar sign. -/
theorem isWordChar_ne_dollar {c : Char} (h : isWordChar c = true) : c ≠ '$' := by
  intro he
  subst he
  simp [isWordChar] at h

/-- C10: an annotation with an empty value never produces an entity chunk
and never raises: the pattern requires at least one value character, so
the text dollar-name-brace-brace fails to match anywhere and the
tokenizer emits it as one plain text chunk; moreover no entity chunk the
tokenizer ever emits has an empty parameter value. -/
theorem empty_value_annotation_is_text (schema : ParameterSchema)
    (name : List Char) (hw : ∀ c ∈ name, isWordChar c = true) :
    chunks schema ('$' :: (name ++ ['{', '}'])) =
      .ok [.textUtteranceChunk ('$' :: (name ++ ['{', '}']))] ∧
    (∀ s cs, chunks schema s = .ok cs → ∀ ec n v,
      UtteranceChunk.entityUtteranceChunk ec n v ∈ cs → v ≠ []) := by
  constructor
  · have hnone : ∀ t, t <:+ ('$' :: (name ++ ['{', '}'])) →
        matchAtHead t = Option.none := by
      intro t ht
      rcases List.suffix_cons_iff.mp ht with heq | hsuf
      · subst heq
        exact matchAtHead_empty_value name hw
      · cases t with
        | nil => rfl
        | cons c t2 =>
          apply matchAtHead_not_dollar
          have hc : c ∈ name ++ ['{', '}'] := hsuf.subset (by simp)
          rcases List.mem_append.mp hc with hcn | hcb
          · exact isWordChar_ne_dollar (hw c hcn)
          · rcases List.mem_cons.mp hcb with rfl | hcb2
            · decide
            · rcases List.mem_cons.mp hcb2 with rfl | hcb3
              · decide
              · exact absurd hcb3 (List.not_mem_nil c)
    have hnm : findMatchesFuel ('$' :: (name ++ ['{', '}'])).length
        ('$' :: (name ++ ['{', '}'])) = [] :=
      findMatchesFuel_nil_of_no_match _ _ hnone
    have := chunksAux_no_match schema ('$' :: (name ++ ['{', '}'])).length
      ('$' :: (name ++ ['{', '}'])) 0 [] le_rfl hnm
    show chunksAux schema ('$' :: (name ++ ['{', '}'])).length
      ('$' :: (name ++ ['{', '}'])) 0 [] = _
    simpa using this
  · intro s cs h ec n v hmem
    exact (chunksAux_entity_nonempty schema s.length s 0 [] cs le_rfl h ec n v hmem).2

theorem empty_value_annotation_is_text_witness :
    chunks sampleSchema ('$' :: (['a'] ++ ['{', '}'])) =
      .ok [.textUtteranceChunk ('$' :: (['a'] ++ ['{', '}']))] :=
  (empty_value_annotation_is_text sampleSchema ['a'] (by decide)).1

/-- C3 counterexample: on an example made of two adjacent annotation
matches with no literal text between them, the tokenizer emits a text
chunk with empty text between the two entity chunks, because the
pre-match text is appended whenever the match start is positive, even
when the text slice between the matches is empty.  This refutes the
claim that no text chunk is emitted between adjacent matches and that
every emitted text chunk has non-empty text. -/
theorem adjacent_matches_emit_empty_text_chunk :
    chunks sampleSchema ['$', 'a', '{', '1', '}', '$', 'b', '{', '2', '}'] =
      .ok [.entityUtteranceChunk ⟨1⟩ ['a'] ['1'],
        .textUtteranceChunk [],
        .entityUtteranceChunk ⟨2⟩ ['b'] ['2']] := rfl

/-- C3 amended: for every example string and every two consecutive
matches of its scan that are adjacent (the second match starts exactly
where the first one ends, so no literal text lies between them), the
tokenizer's output contains, consecutively, the first entity chunk, a
text chunk with EMPTY text, and the second entity chunk: the pre-match
slice between adjacent matches is empty but is emitted anyway, because
the source appends it whenever the match start position is positive. -/
theorem adjacent_matches_empty_text_chunk_general (schema : ParameterSchema)
    (s : List Char) (cs : List UtteranceChunk)
    (pre post : List (Nat × List Char × List Char)) (p1 p2 : Nat)
    (n1 v1 n2 v2 : List Char)
    (h : chunks schema s = .ok cs)
    (hm : findMatchesPos s = pre ++ (p1, n1, v1) :: (p2, n2, v2) :: post)
    (hadj : p2 = p1 + (n1.length + v1.length + 3)) :
    ∃ s1 s2 cs1 cs2,
      schemaLookup schema n1 = some s1 ∧ schemaLookup schema n2 = some s2 ∧
      cs = cs1 ++ .entityUtteranceChunk s1.entity_cls n1 v1 ::
        .textUtteranceChunk [] ::
        .entityUtteranceChunk s2.entity_cls n2 v2 :: cs2 :=
  chunksAux_adjacent_pair schema s.length s 0 [] cs pre post p1 p2 n1 v1 n2 v2
    le_rfl h hm hadj

theorem adjacent_matches_empty_text_chunk_general_witness :
    ∃ s1 s2 cs1 cs2,
      schemaLookup sampleSchema ['a'] = some s1 ∧
      schemaLookup sampleSchema ['b'] = some s2 ∧
      [UtteranceChunk.textUtteranceChunk ['h', 'i', ' '],
       .entityUtteranceChunk ⟨1⟩ ['a'] ['1'],
       .textUtteranceChunk [],
       .entityUtteranceChunk ⟨2⟩ ['b'] ['2']] =
        cs1 ++ UtteranceChunk.entityUtteranceChunk s1.entity_cls ['a'] ['1'] ::
          UtteranceChunk.textUtteranceChunk [] ::
          UtteranceChunk.entityUtteranceChunk s2.entity_cls ['b'] ['2'] :: cs2 :=
  adjacent_matches_empty_text_chunk_general sampleSchema
    ['h', 'i', ' ', '$', 'a', '{', '1', '}', '$', 'b', '{', '2', '}']
    [.textUtteranceChunk ['h', 'i', ' '],
     .entityUtteranceChunk ⟨1⟩ ['a'] ['1'],
     .textUtteranceChunk [],
     .entityUtteranceChunk ⟨2⟩ ['b'] ['2']]
    [] [] 3 8 ['a'] ['1'] ['b'] ['2'] rfl rfl rfl

/-! ## Claims about the responses and the loader -/

/-- C1 counterexample: a response item of kind `custom` inside the
`default` group is rejected with the invalid-response-group error, not
accepted as a custom payload response, refuting the claim that the
`default` group accepts the `custom` kind. -/
theorem custom_in_default_group_rejected :
    build_responses (.dict [("default",
        .list [.dict [("custom", .dict [("loc", .dict [("lat", .int 1)])])]])]) =
      .error (.invalidResponseGroup "custom") := rfl

/-- C1 amended: when assembling into the `default` response group, only
items of kind `text` are dispatched (to the text response parser); an
item of any other kind, including `custom`, fails with the
invalid-response-group error. -/
theorem default_group_accepts_only_text (r_type : String) (r_data : PyObj) :
    buildResponseItem IntentResponseGroup.default (.dict [(r_type, r_data)]) =
      if r_type = "text" then TextIntentResponse.from_yaml r_data
      else .error (.invalidResponseGroup r_type) := by
  by_cases h : r_type = "text"
  · subst h
    simp [buildResponseItem]
  · simp [buildResponseItem, h]

/-- C2: loading a null (falsy) document is not an error: the loader
returns a bare `IntentLanguageData` whose example utterances are an empty
sequence and whose slot filling prompts are an empty mapping, but whose
`responses` field is a literal empty Python LIST, not the empty mapping
that the field's `Dict` declaration (and the claim) call for. -/
theorem null_document_loads_bare_with_list_responses (intent_name : String)
    (schema : ParameterSchema) (language_code : String) :
    intent_language_data intent_name schema language_code .none =
      .ok (.bare ⟨[], PyObj.dict [], .asList []⟩) ∧
    ResponsesField.asList ([] : List IntentResponse) ≠ ResponsesField.asDict [] :=
  ⟨rfl, fun h => ResponsesField.noConfusion h⟩

/-- C9: the loader's top level is a single wrapping point: whenever the
body (tokenizing examples, dispatching responses, decoding response
groups) fails with any error, the loader fails with exactly one wrapping
error naming the intent and carrying the original error as its preserved
cause, and every loader error arises this way. -/
theorem loader_wraps_errors_with_intent_name (intent_name : String)
    (schema : ParameterSchema) (language_code : String) (language_data : PyObj) :
    (∀ e, intentLanguageDataInner schema language_code language_data = .error e →
      intent_language_data intent_name schema language_code language_data =
        .error (.languageLoadError intent_name e)) ∧
    (∀ le, intent_language_data intent_name schema language_code language_data =
        .error le →
      ∃ e, intentLanguageDataInner schema language_code language_data = .error e ∧
        le = .languageLoadError intent_name e) := by
  constructor
  · intro e he
    unfold intent_language_data
    rw [he]
  · intro le hle
    unfold intent_language_data at hle
    revert hle
    cases hinner : intentLanguageDataInner schema language_code language_data with
    | ok r => intro hle; exact absurd hle (by simp)
    | error e =>
      intro hle
      simp only [Except.error.injEq] at hle
      exact ⟨e, rfl, hle.symm⟩

theorem loader_wraps_errors_with_intent_name_witness :
    intent_language_data "my_intent" sampleSchema "en"
        (.dict [("examples", .list [.str (String.mk ['$', 'c', '{', '1', '}'])])]) =
      .error (.languageLoadError "my_intent" (.unknownParameter ['c'])) :=
  (loader_wraps_errors_with_intent_name "my_intent" sampleSchema "en"
      (.dict [("examples", .list [.str (String.mk ['$', 'c', '{', '1', '}'])])])).1
    (.unknownParameter ['c']) rfl

/-- `checkReplies` accepts a list of strings exactly when none exceeds 20
characters. -/
theorem checkReplies_str_ok_iff (l : List String) :
    checkReplies (l.map PyObj.str) = .ok () ↔ ∀ s ∈ l, s.length ≤ 20 := by
  induction l with
  | nil => simp [checkReplies]
  | cons s rest ih =>
    simp only [List.map_cons, checkReplies, pyLen]
    by_cases h : s.length > 20
    · simp only [h, if_true]
      constructor
      · intro hbad; exact absurd hbad (by simp)
      · intro hall
        exact absurd (hall s (by simp)) (by omega)
    · simp only [h, if_false, ih]
      constructor
      · intro hall s2 hs2
        rcases List.mem_cons.mp hs2 with rfl | hs2
        · omega
        · exact hall s2 hs2
      · intro hall s2 hs2
        exact hall s2 (by simp [hs2])

/-- When `checkReplies` rejects a list of strings, the error is the
too-long error for one of the replies, naming it and its length. -/
theorem checkReplies_str_error (l : List String) (e : PyError)
    (h : checkReplies (l.map PyObj.str) = .error e) :
    ∃ s ∈ l, e = .quickReplyTooLong s s.length ∧ 20 < s.length := by
  induction l with
  | nil => exact absurd h (by simp [checkReplies])
  | cons s rest ih =>
    simp only [List.map_cons, checkReplies, pyLen] at h
    by_cases hl : s.length > 20
    · simp only [hl, if_true, Except.error.injEq] at h
      exact ⟨s, by simp, h.symm, hl⟩
    · simp only [hl, if_false] at h
      obtain ⟨s2, hmem, he, hlen⟩ := ih h
      exact ⟨s2, by simp [hmem], he, hlen⟩

/-- C7: quick replies construction enforces the 20-character bound: a
list of string replies is accepted exactly when every reply is at most 20
characters long, every rejection is the too-long error naming an
offending reply longer than 20 characters, and a single string reply is
accepted or rejected by the same bound (so 20 characters succeed and 21
fail). -/
theorem quick_replies_length_invariant (replies : List String) :
    (QuickRepliesIntentResponse.from_yaml (.list (replies.map PyObj.str)) =
        .ok (.quickRepliesIntentResponse (replies.map PyObj.str)) ↔
      ∀ rep ∈ replies, rep.length ≤ 20) ∧
    (∀ e, QuickRepliesIntentResponse.from_yaml (.list (replies.map PyObj.str)) =
        .error e →
      ∃ rep ∈ replies, e = .quickReplyTooLong rep rep.length ∧ 20 < rep.length) ∧
    (∀ s : String, QuickRepliesIntentResponse.from_yaml (.str s) =
      if s.length > 20 then .error (.quickReplyTooLong s s.length)
      else .ok (.quickRepliesIntentResponse [.str s])) := by
  refine ⟨?_, ?_, ?_⟩
  · constructor
    · intro h
      revert h
      cases hc : checkReplies (replies.map PyObj.str) with
      | error e2 =>
        intro h
        simp only [QuickRepliesIntentResponse.from_yaml, hc] at h
        exact absurd h (by simp)
      | ok u =>
        intro h
        cases u
        exact (checkReplies_str_ok_iff replies).mp hc
    · intro hall
      have hc := (checkReplies_str_ok_iff replies).mpr hall
      simp [QuickRepliesIntentResponse.from_yaml, hc]
  · intro e he
    revert he
    cases hc : checkReplies (replies.map PyObj.str) with
    | ok u =>
      intro he
      simp only [QuickRepliesIntentResponse.from_yaml, hc] at he
      exact absurd he (by simp)
    | error e2 =>
      intro he
      simp only [QuickRepliesIntentResponse.from_yaml, hc,
        Except.error.injEq] at he
      subst he
      exact checkReplies_str_error replies e2 hc
  · intro s
    by_cases h : s.length > 20
    · simp [QuickRepliesIntentResponse.from_yaml, checkReplies, pyLen, h]
    · simp [QuickRepliesIntentResponse.from_yaml, checkReplies, pyLen, h]

theorem quick_replies_length_invariant_witness :
    QuickRepliesIntentResponse.from_yaml (.str "xxxxxxxxxxxxxxxxxxxx") =
        .ok (.quickRepliesIntentResponse [.str "xxxxxxxxxxxxxxxxxxxx"]) ∧
    QuickRepliesIntentResponse.from_yaml (.str "xxxxxxxxxxxxxxxxxxxxx") =
        .error (.quickReplyTooLong "xxxxxxxxxxxxxxxxxxxxx" 21) := by
  constructor
  · have h := (quick_replies_length_invariant []).2.2 "xxxxxxxxxxxxxxxxxxxx"
    simpa using h
  · have h := (quick_replies_length_invariant []).2.2 "xxxxxxxxxxxxxxxxxxxxx"
    simpa using h

/-- Case split of `CustomPayloadIntentResponse.from_yaml`: it succeeds
precisely on a one-entry mapping whose value is a mapping, and every
failure is one of the malformed-payload errors. -/
theorem custom_payload_cases (data : PyObj) :
    (∃ n p, data = .dict [(n, PyObj.dict p)] ∧
      CustomPayloadIntentResponse.from_yaml data =
        .ok (.customPayloadIntentResponse n p)) ∨
    ((¬ ∃ n p, data = .dict [(n, PyObj.dict p)]) ∧
      ∃ e, CustomPayloadIntentResponse.from_yaml data = .error e ∧
        e.isMalformedPayload = true) := by
  rcases data with s | i | b | items | entries | _
  case str => exact Or.inr ⟨by rintro ⟨n, p, h⟩; simp at h, _, rfl, rfl⟩
  case int => exact Or.inr ⟨by rintro ⟨n, p, h⟩; simp at h, _, rfl, rfl⟩
  case bool => exact Or.inr ⟨by rintro ⟨n, p, h⟩; simp at h, _, rfl, rfl⟩
  case list => exact Or.inr ⟨by rintro ⟨n, p, h⟩; simp at h, _, rfl, rfl⟩
  case none => exact Or.inr ⟨by rintro ⟨n, p, h⟩; simp at h, _, rfl, rfl⟩
  case dict =>
    rcases entries with _ | ⟨⟨nm, val⟩, tail⟩
    · exact Or.inr ⟨by rintro ⟨n, p, h⟩; simp at h, _, rfl, rfl⟩
    · rcases tail with _ | ⟨h2, tail2⟩
      · rcases val with s | i | b | items | payload | _
        case dict => exact Or.inl ⟨nm, payload, rfl, rfl⟩
        case str => exact Or.inr ⟨by rintro ⟨n, p, h⟩; simp at h, _, rfl, rfl⟩
        case int => exact Or.inr ⟨by rintro ⟨n, p, h⟩; simp at h, _, rfl, rfl⟩
        case bool => exact Or.inr ⟨by rintro ⟨n, p, h⟩; simp at h, _, rfl, rfl⟩
        case list => exact Or.inr ⟨by rintro ⟨n, p, h⟩; simp at h, _, rfl, rfl⟩
        case none => exact Or.inr ⟨by rintro ⟨n, p, h⟩; simp at h, _, rfl, rfl⟩
      · refine Or.inr ⟨by rintro ⟨n, p, h⟩; simp at h,
          .malformedPayloadKeyCount ((nm, val) :: h2 :: tail2).length, ?_, rfl⟩
        cases val <;> rfl

/-- C8: custom payload parsing succeeds exactly on a mapping with exactly
one key whose value is itself a mapping, returning the response whose
name is that key and whose payload is that value; a non-mapping input, a
key count different from one, and a non-mapping value all fail with a
malformed-payload error. -/
theorem custom_payload_parsing (data : PyObj) :
    (∀ n p, data = .dict [(n, PyObj.dict p)] →
      CustomPayloadIntentResponse.from_yaml data =
        .ok (.customPayloadIntentResponse n p)) ∧
    ((∃ r, CustomPayloadIntentResponse.from_yaml data = .ok r) ↔
      ∃ n p, data = .dict [(n, PyObj.dict p)]) ∧
    (∀ e, CustomPayloadIntentResponse.from_yaml data = .error e →
      e.isMalformedPayload = true) := by
  rcases custom_payload_cases data with ⟨n, p, hdata, hok⟩ | ⟨hnot, e, herr, hmal⟩
  · refine ⟨?_, ?_, ?_⟩
    · intro n2 p2 h2
      rw [hdata] at h2
      have h3 : n = n2 ∧ p = p2 := by simpa using h2
      obtain ⟨rfl, rfl⟩ := h3
      exact hok
    · exact ⟨fun _ => ⟨n, p, hdata⟩, fun _ => ⟨_, hok⟩⟩
    · intro e2 he2
      rw [hok] at he2
      exact absurd he2 (by simp)
  · refine ⟨?_, ?_, ?_⟩
    · intro n p h
      exact absurd ⟨n, p, h⟩ hnot
    · constructor
      · rintro ⟨r, hr⟩
        rw [herr] at hr
        exact absurd hr (by simp)
      · rintro ⟨n, p, h⟩
        exact absurd ⟨n, p, h⟩ hnot
    · intro e2 he2
      rw [herr] at he2
      simp only [Except.error.injEq] at he2
      subst he2
      exact hmal

theorem custom_payload_parsing_witness :
    CustomPayloadIntentResponse.from_yaml
        (.dict [("loc", .dict [("lat", .int 1)])]) =
      .ok (.customPayloadIntentResponse "loc" [("lat", .int 1)]) :=
  (custom_payload_parsing (.dict [("loc", .dict [("lat", .int 1)])])).1 "loc"
    [("lat", .int 1)] rfl

end IntentLanguage
